import Mathlib

/-!
Shallow embedding of the order-management core of the e-commerce backend
(`app/services/order_service.py`, `app/services/product_service.py`,
`app/services/webhook_service.py`, `app/utils/validators.py`,
`app/utils/webhook_auth.py`, models in `app/models/`).

Modelling conventions:
* UUID primary keys are modelled as `Nat`; `DECIMAL(10,2)` money values as
  exact rationals (`ℚ`), matching Python `Decimal` exactness; SQL `INTEGER`
  columns as `Int`.
* The SQLAlchemy session is modelled as an explicit `DB` state value; an
  operation that raises an `HTTPException` before `commit` is modelled as
  returning `.error e`, which leaves the caller's state unchanged (the
  session is rolled back / never committed).
* Service functions that return Python `None` for a missing row (the router
  then emits a 404) return `Option` inside `Except`.
-/

inductive OrderStatus
  | pending
  | completed
  | canceled
  deriving DecidableEq

inductive PaymentStatus
  | unpaid
  | paid
  | failed
  deriving DecidableEq

/-- The business-rule errors raised as `HTTPException`s by the services.
`notFound` carries the missing product ids listed in the 404 detail;
`insufficientStock` carries the product name, its available quantity and the
requested quantity, exactly the data interpolated into the 400 detail. -/
inductive SvcError
  | notFound (missing : List Nat)
  | orderNotFound (oid : Nat)
  | insufficientStock (name : String) (available requested : Int)
  | invalidTransition (current target : OrderStatus)
  | invalidState (current : OrderStatus)
  | alreadyPaid
  | invalidPayload
  | referenced
  deriving DecidableEq

instance instDecEqExcept {ε α : Type} [DecidableEq ε] [DecidableEq α] :
    DecidableEq (Except ε α) := fun a b =>
  match a, b with
  | .ok x, .ok y => decidable_of_iff (x = y) (by simp)
  | .error e, .error f => decidable_of_iff (e = f) (by simp)
  | .ok _, .error _ => isFalse (by simp)
  | .error _, .ok _ => isFalse (by simp)

/-- `app/models/product.py`: one row of the `products` table. -/
structure Product where
  id : Nat
  name : String
  description : Option String
  price : ℚ
  quantity : Int
  deriving DecidableEq

/-- `app/models/order_item.py`: one row of the `order_items` table
(the `order_id` column is implicit: items live inside their `Order`). -/
structure OrderItem where
  product_id : Nat
  quantity : Int
  price_at_purchase : ℚ
  deriving DecidableEq

/-- `app/models/order.py`: one row of the `orders` table together with its
`order_items` relationship. -/
structure Order where
  id : Nat
  customer_id : Int
  total_price : ℚ
  status : OrderStatus
  payment_status : PaymentStatus
  order_items : List OrderItem
  deriving DecidableEq

/-- The persistent state: the two tables the services read and write. -/
structure DB where
  products : List Product
  orders : List Order
  deriving DecidableEq

/-- `db.query(Product).filter(Product.id == pid).first()`. -/
def findProduct (ps : List Product) (pid : Nat) : Option Product :=
  ps.find? (fun p => p.id == pid)

/-- `db.query(Order).filter(Order.id == oid).first()` (`get_order`). -/
def findOrder (os : List Order) (oid : Nat) : Option Order :=
  os.find? (fun o => o.id == oid)

/-- `app/schemas/order.py` `OrderItemCreate` (Pydantic validates
`quantity > 0`; that validation is carried as a hypothesis where needed). -/
structure OrderItemCreate where
  product_id : Nat
  quantity : Int
  deriving DecidableEq

/-- `app/schemas/order.py` `OrderCreate`. -/
structure OrderCreate where
  customer_id : Int
  products : List OrderItemCreate
  deriving DecidableEq

/-- `app/schemas/product.py` `ProductCreate`. -/
structure ProductCreate where
  name : String
  description : Option String
  price : ℚ
  quantity : Int
  deriving DecidableEq

/-- `app/schemas/product.py` `ProductUpdate`: every field optional
(`exclude_unset` partial update; `none` = field not provided). -/
structure ProductUpdate where
  name : Option String
  description : Option (Option String)
  price : Option ℚ
  quantity : Option Int
  deriving DecidableEq

/-- `app/utils/validators.py` `ALLOWED_STATUS_TRANSITIONS`. -/
def allowedStatusTransitions : OrderStatus → List OrderStatus
  | .pending => [.completed, .canceled]
  | .completed => []
  | .canceled => []

/-- `app/utils/validators.py` `validate_status_transition`: a same→same
transition returns immediately; otherwise the target must be listed in
`ALLOWED_STATUS_TRANSITIONS[current]`. -/
def validate_status_transition (current target : OrderStatus) : Except SvcError Unit :=
  if current = target then .ok ()
  else if target ∈ allowedStatusTransitions current then .ok ()
  else .error (.invalidTransition current target)

/-- `app/utils/validators.py` `validate_payment_status_update`.  Note: this
function has no caller anywhere in the repository — `update_payment_status`
below performs only the first of its two checks. -/
def validate_payment_status_update (current_order_status : OrderStatus)
    (current_payment_status new_payment_status : PaymentStatus) : Except SvcError Unit :=
  if current_order_status ≠ OrderStatus.pending then
    .error (.invalidState current_order_status)
  else if current_payment_status = PaymentStatus.paid ∧
      new_payment_status ≠ PaymentStatus.paid then
    .error .alreadyPaid
  else .ok ()

/-- `product.quantity += delta` on the row with id `pid` (the row object in
`product_map` / the `first()` result is the session's row, so mutating it
mutates the table). -/
def adjustQuantity (ps : List Product) (pid : Nat) (delta : Int) : List Product :=
  ps.map (fun p => if p.id == pid then { p with quantity := p.quantity + delta } else p)

/-- `product_map[pid].price`; after `create_order`'s length guard every
requested id is present in `found`, so the `none` default is unreachable
in context. -/
def priceOf (found : List Product) (pid : Nat) : ℚ :=
  match findProduct found pid with
  | some p => p.price
  | none => 0

/-- `create_order` step 2: scan the lines in order and report the first line
whose requested quantity exceeds the stock of its product, as
(product name, available, requested).  After the length guard every line's
product is present, so the `none` lookup branch is unreachable in context. -/
def firstShortLine (found : List Product) : List OrderItemCreate → Option (String × Int × Int)
  | [] => none
  | it :: rest =>
    match findProduct found it.product_id with
    | some p =>
        if p.quantity < it.quantity then some (p.name, p.quantity, it.quantity)
        else firstShortLine found rest
    | none => firstShortLine found rest

/-- `create_order` steps 4–5: `product.quantity -= item.quantity` for each
line, in line order. -/
def deductAll (ps : List Product) : List OrderItemCreate → List Product
  | [] => ps
  | it :: rest => deductAll (adjustQuantity ps it.product_id (-it.quantity)) rest

/-- `create_order` step 1: `product_ids = [item.product_id for item in
order_data.products]` (in request order, duplicates kept). -/
def requestedIds (od : OrderCreate) : List Nat :=
  od.products.map (fun it => it.product_id)

/-- `create_order` step 1: `db.query(Product).filter(Product.id.in_(product_ids)).all()`
— each matching row returned once, in table order. -/
def foundProducts (db : DB) (od : OrderCreate) : List Product :=
  db.products.filter (fun p => (requestedIds od).contains p.id)

/-- `app/services/order_service.py` `create_order`.  `newOrderId` stands for
the fresh UUID the database generates for the order row. -/
def create_order (db : DB) (newOrderId : Nat) (od : OrderCreate) : Except SvcError DB :=
  let product_ids := requestedIds od
  let found := foundProducts db od
  if found.length ≠ product_ids.length then
    .error (.notFound (product_ids.filter (fun pid => !(found.any (fun p => p.id == pid)))))
  else
    match firstShortLine found od.products with
    | some (nm, avail, req) => .error (.insufficientStock nm avail req)
    | none =>
      let total_price := (od.products.map (fun it => priceOf found it.product_id * (it.quantity : ℚ))).sum
      let items := od.products.map (fun it =>
        OrderItem.mk it.product_id it.quantity (priceOf found it.product_id))
      let new_order : Order :=
        { id := newOrderId, customer_id := od.customer_id, total_price := total_price,
          status := .pending, payment_status := .unpaid, order_items := items }
      .ok { products := deductAll db.products od.products, orders := db.orders ++ [new_order] }

/-- `update_order_status` cancellation branch: for each order item, query its
product and, only if it still exists, add the item's quantity back. -/
def restoreAll (ps : List Product) : List OrderItem → List Product
  | [] => ps
  | it :: rest =>
    match findProduct ps it.product_id with
    | some _ => restoreAll (adjustQuantity ps it.product_id it.quantity) rest
    | none => restoreAll ps rest

/-- `db_order.status = new_status` on the row with id `oid`. -/
def setOrderStatus (os : List Order) (oid : Nat) (target : OrderStatus) : List Order :=
  os.map (fun o => if o.id == oid then { o with status := target } else o)

/-- `db_order.payment_status = new_payment_status` on the row with id `oid`. -/
def setPaymentStatus (os : List Order) (oid : Nat) (ps : PaymentStatus) : List Order :=
  os.map (fun o => if o.id == oid then { o with payment_status := ps } else o)

/-- `app/services/order_service.py` `update_order_status`:
returns `ok none` when the order is absent (the router turns that into 404),
propagates the transition validator's error, restores inventory exactly when
the transition is Pending→Canceled, then writes the new status. -/
def update_order_status (db : DB) (oid : Nat) (target : OrderStatus) :
    Except SvcError (Option DB) :=
  match findOrder db.orders oid with
  | none => .ok none
  | some db_order =>
    match validate_status_transition db_order.status target with
    | .error e => .error e
    | .ok _ =>
      let ps :=
        if target = OrderStatus.canceled ∧ db_order.status = OrderStatus.pending then
          restoreAll db.products db_order.order_items
        else db.products
      .ok (some { products := ps, orders := setOrderStatus db.orders oid target })

/-- `app/services/order_service.py` `update_payment_status`: only the
order-status-is-pending guard is performed; the current payment status is
not consulted. -/
def update_payment_status (db : DB) (oid : Nat) (new_payment_status : PaymentStatus) :
    Except SvcError (Option DB) :=
  match findOrder db.orders oid with
  | none => .ok none
  | some db_order =>
    if db_order.status ≠ OrderStatus.pending then
      .error (.invalidState db_order.status)
    else
      .ok (some { db with orders := setPaymentStatus db.orders oid new_payment_status })

/-- `app/services/webhook_service.py` `process_payment_webhook`. -/
def process_payment_webhook (db : DB) (oid : Nat) (payment_status : PaymentStatus) :
    Except SvcError DB :=
  if payment_status ∉ [PaymentStatus.paid, PaymentStatus.failed] then
    .error .invalidPayload
  else
    match update_payment_status db oid payment_status with
    | .error e => .error e
    | .ok none => .error (.orderNotFound oid)
    | .ok (some db2) => .ok db2

/-- `app/services/product_service.py` `create_product`; `newProductId` stands
for the fresh UUID default of the `id` column. -/
def create_product (db : DB) (newProductId : Nat) (pd : ProductCreate) : DB :=
  { db with products := db.products ++
      [{ id := newProductId, name := pd.name, description := pd.description,
         price := pd.price, quantity := pd.quantity }] }

/-- `setattr(db_product, field, value)` for each field present in
`model_dump(exclude_unset=True)`. -/
def applyProductUpdate (p : Product) (u : ProductUpdate) : Product :=
  { p with
    name := u.name.getD p.name,
    description := u.description.getD p.description,
    price := u.price.getD p.price,
    quantity := u.quantity.getD p.quantity }

/-- `app/services/product_service.py` `update_product`: no row → `None`
(state unchanged); otherwise overwrite the provided fields. -/
def update_product (db : DB) (pid : Nat) (u : ProductUpdate) : DB :=
  match findProduct db.products pid with
  | none => db
  | some _ =>
      { db with products :=
          db.products.map (fun p => if p.id == pid then applyProductUpdate p u else p) }

/-- Whether any order item still references the product: the condition under
which the `ondelete='RESTRICT'` foreign key makes the delete's commit fail. -/
def productReferenced (db : DB) (pid : Nat) : Bool :=
  db.orders.any (fun o => o.order_items.any (fun it => it.product_id == pid))

/-- `app/services/product_service.py` `delete_product`: not found → `False`
(no change); referenced → the FK constraint aborts the commit and the service
rolls back and raises; otherwise the row is removed. -/
def delete_product (db : DB) (pid : Nat) : Except SvcError DB :=
  match findProduct db.products pid with
  | none => .ok db
  | some _ =>
    if productReferenced db pid then .error .referenced
    else .ok { db with products := db.products.filter (fun p => !(p.id == pid)) }

/-!
## Operation traces

`Op` packages the core mutating operations for invariant claims quantified
over operation sequences.  `applyOp` runs one operation against the state;
an operation that errors (or finds no row) commits nothing, so the state is
returned unchanged.
-/

inductive Op
  | createOrder (newOrderId : Nat) (od : OrderCreate)
  | updateOrderStatus (oid : Nat) (target : OrderStatus)
  | updatePaymentStatus (oid : Nat) (ps : PaymentStatus)
  | createProduct (newProductId : Nat) (pd : ProductCreate)
  | updateProduct (pid : Nat) (u : ProductUpdate)
  | deleteProduct (pid : Nat)
  deriving DecidableEq

def applyOp (db : DB) : Op → DB
  | .createOrder nid od =>
      match create_order db nid od with
      | .ok db2 => db2
      | .error _ => db
  | .updateOrderStatus oid t =>
      match update_order_status db oid t with
      | .ok (some db2) => db2
      | _ => db
  | .updatePaymentStatus oid p =>
      match update_payment_status db oid p with
      | .ok (some db2) => db2
      | _ => db
  | .createProduct nid pd => create_product db nid pd
  | .updateProduct pid u => update_product db pid u
  | .deleteProduct pid =>
      match delete_product db pid with
      | .ok db2 => db2
      | .error _ => db

def run (db : DB) : List Op → DB
  | [] => db
  | op :: rest => run (applyOp db op) rest

/-- The database's own integrity constraints, as declared in the models:
primary-key uniqueness for `products.id` and `orders.id`,
`check_quantity_non_negative` on products, and
`check_order_item_quantity_positive` on order items. -/
def DBInv (db : DB) : Prop :=
  (db.products.map Product.id).Nodup ∧
  (db.orders.map Order.id).Nodup ∧
  (∀ p ∈ db.products, 0 ≤ p.quantity) ∧
  (∀ o ∈ db.orders, ∀ it ∈ o.order_items, 0 < it.quantity)

/-- Request-level validation performed before the service runs: the Pydantic
schema constraints (`OrderItemCreate.quantity > 0`, `ProductCreate.quantity
≥ 0`, `ProductUpdate.quantity ≥ 0` when provided) and freshness of the
database-generated UUID for inserts. -/
def ValidOp (db : DB) : Op → Prop
  | .createOrder nid od =>
      (∀ it ∈ od.products, 0 < it.quantity) ∧ nid ∉ db.orders.map Order.id
  | .createProduct nid pd =>
      0 ≤ pd.quantity ∧ nid ∉ db.products.map Product.id
  | .updateProduct _ u => ∀ q, u.quantity = some q → 0 ≤ q
  | _ => True

/-- Every operation of the trace is schema-valid in the state it runs in. -/
def ValidTrace : DB → List Op → Prop
  | _, [] => True
  | db, op :: rest => ValidOp db op ∧ ValidTrace (applyOp db op) rest

/-!
## HMAC-SHA256 (`app/utils/webhook_auth.py`)

`hmac.new(secret, body, hashlib.sha256).hexdigest()` is modelled by a direct
FIPS 180-4 / RFC 2104 implementation over byte lists (`Nat` values < 256),
with 32-bit words as `Nat` reduced mod `2^32`.
-/

def w32 : Nat := 4294967296

def rotr32 (x n : Nat) : Nat := (x / 2 ^ n + x % 2 ^ n * 2 ^ (32 - n)) % w32

def shr32 (x n : Nat) : Nat := x / 2 ^ n

def ch32 (x y z : Nat) : Nat := (x &&& y) ^^^ ((w32 - 1 - x) &&& z)

def maj32 (x y z : Nat) : Nat := (x &&& y) ^^^ (x &&& z) ^^^ (y &&& z)

def smallSigma0 (x : Nat) : Nat := rotr32 x 7 ^^^ rotr32 x 18 ^^^ shr32 x 3

def smallSigma1 (x : Nat) : Nat := rotr32 x 17 ^^^ rotr32 x 19 ^^^ shr32 x 10

def bigSigma0 (x : Nat) : Nat := rotr32 x 2 ^^^ rotr32 x 13 ^^^ rotr32 x 22

def bigSigma1 (x : Nat) : Nat := rotr32 x 6 ^^^ rotr32 x 11 ^^^ rotr32 x 25

def sha256K : List Nat :=
  [1116352408, 1899447441, 3049323471, 3921009573, 961987163, 1508970993,
   2453635748, 2870763221, 3624381080, 310598401, 607225278, 1426881987,
   1925078388, 2162078206, 2614888103, 3248222580, 3835390401, 4022224774,
   264347078, 604807628, 770255983, 1249150122, 1555081692, 1996064986,
   2554220882, 2821834349, 2952996808, 3210313671, 3336571891, 3584528711,
   113926993, 338241895, 666307205, 773529912, 1294757372, 1396182291,
   1695183700, 1986661051, 2177026350, 2456956037, 2730485921, 2820302411,
   3259730800, 3345764771, 3516065817, 3600352804, 4094571909, 275423344,
   430227734, 506948616, 659060556, 883997877, 958139571, 1322822218,
   1537002063, 1747873779, 1955562222, 2024104815, 2227730452, 2361852424,
   2428436474, 2756734187, 3204031479, 3329325298]

def sha256H0 : List Nat :=
  [1779033703, 3144134277, 1013904242, 2773480762, 1359893119, 2600822924,
   528734635, 1541459225]

/-- Big-endian byte rendering of `n` on `k` bytes. -/
def beBytes (n : Nat) : Nat → List Nat
  | 0 => []
  | k + 1 => beBytes (n / 256) k ++ [n % 256]

/-- SHA-256 padding: append `0x80`, zero bytes to 56 mod 64, then the bit
length on 8 big-endian bytes. -/
def sha256Pad (msg : List Nat) : List Nat :=
  msg ++ [128] ++ List.replicate ((119 - msg.length % 64) % 64) 0 ++ beBytes (8 * msg.length) 8

/-- Big-endian 32-bit words from bytes (length a multiple of 4). -/
def toWords : List Nat → List Nat
  | b0 :: b1 :: b2 :: b3 :: rest =>
      (((b0 * 256 + b1) * 256 + b2) * 256 + b3) :: toWords rest
  | _ => []

/-- Extend a 16-word block schedule by `i` further words. -/
def extendSchedule (ws : List Nat) : Nat → List Nat
  | 0 => ws
  | i + 1 =>
      let n := ws.length
      let w := (smallSigma1 (ws.getD (n - 2) 0) + ws.getD (n - 7) 0 +
        smallSigma0 (ws.getD (n - 15) 0) + ws.getD (n - 16) 0) % w32
      extendSchedule (ws ++ [w]) i

/-- One SHA-256 round on the 8-word working state; `kw` is `K[i] + W[i]`. -/
def sha256Round (st : List Nat) (kw : Nat) : List Nat :=
  match st with
  | [a, b, c, d, e, f, g, h] =>
      let t1 := (h + bigSigma1 e + ch32 e f g + kw) % w32
      let t2 := (bigSigma0 a + maj32 a b c) % w32
      [(t1 + t2) % w32, a, b, c, (d + t1) % w32, e, f, g]
  | _ => st

/-- Compress one 64-byte block into the chaining state. -/
def sha256Compress (H : List Nat) (block : List Nat) : List Nat :=
  let ws := extendSchedule (toWords block) 48
  let st := (sha256K.zip ws).foldl (fun s p => sha256Round s (p.1 + p.2)) H
  (H.zip st).map (fun p => (p.1 + p.2) % w32)

/-- Split into 64-byte blocks, given the block count. -/
def chunksGo : Nat → List Nat → List (List Nat)
  | 0, _ => []
  | n + 1, l => l.take 64 :: chunksGo n (l.drop 64)

/-- `hashlib.sha256(msg).digest()` as 32 bytes. -/
def sha256 (msg : List Nat) : List Nat :=
  let padded := sha256Pad msg
  let Hf := (chunksGo (padded.length / 64) padded).foldl sha256Compress sha256H0
  (Hf.map (fun wrd => beBytes wrd 4)).flatten

/-- RFC 2104 HMAC with SHA-256 and a 64-byte block size. -/
def hmacSha256 (key msg : List Nat) : List Nat :=
  let key2 := if 64 < key.length then sha256 key else key
  let key3 := key2 ++ List.replicate (64 - key2.length) 0
  let ipad := key3.map (fun b => b ^^^ 54)
  let opad := key3.map (fun b => b ^^^ 92)
  sha256 (opad ++ sha256 (ipad ++ msg))

/-- Lowercase hex digit, as `hexdigest` renders. -/
def hexDigitChar (n : Nat) : Char :=
  if n < 10 then Char.ofNat (48 + n) else Char.ofNat (87 + n)

def byteToHex (b : Nat) : List Char := [hexDigitChar (b / 16), hexDigitChar (b % 16)]

/-- `.hexdigest()`: lowercase hex rendering of a byte string. -/
def hexdigest (bytes : List Nat) : String :=
  String.mk ((bytes.map byteToHex).flatten)

/-- `hmac.new(secret, body, hashlib.sha256).hexdigest()`. -/
def hmacSha256Hexdigest (secret body : List Nat) : String :=
  hexdigest (hmacSha256 secret body)

/-- The rejection responses of `verify_webhook_signature`:
401 for a missing or invalid signature, 400 for an empty body. -/
inductive AuthError
  | missingSignature
  | emptyBody
  | invalidSignature
  deriving DecidableEq

/-- `app/utils/webhook_auth.py` `verify_webhook_signature`.  The header is
`none` when absent; Python's `if not signature_header` also treats a present
but empty header string as missing.  On success the raw body is returned for
parsing, exactly as in the source. -/
def verify_webhook_signature (secret : List Nat) (signature_header : Option String)
    (body : List Nat) : Except AuthError (List Nat) :=
  match signature_header with
  | none => .error .missingSignature
  | some sig =>
    if sig = "" then .error .missingSignature
    else if body = [] then .error .emptyBody
    else if hmacSha256Hexdigest secret body = sig then .ok body
    else .error .invalidSignature

/-- Uppercase rendering of a hex signature string (character-wise
`Char.toUpper`), used to state case-sensitivity of the comparison. -/
def upperHex (s : String) : String :=
  String.mk (s.data.map Char.toUpper)

/-!
## Lemmas: row lookups and row updates
-/

theorem findProduct_id {ps : List Product} {pid : Nat} {p : Product}
    (h : findProduct ps pid = some p) : p.id = pid := by
  simpa using List.find?_some h

theorem findProduct_mem {ps : List Product} {pid : Nat} {p : Product}
    (h : findProduct ps pid = some p) : p ∈ ps :=
  List.mem_of_find?_eq_some h

theorem findOrder_id {os : List Order} {oid : Nat} {o : Order}
    (h : findOrder os oid = some o) : o.id = oid := by
  simpa using List.find?_some h

theorem findOrder_mem {os : List Order} {oid : Nat} {o : Order}
    (h : findOrder os oid = some o) : o ∈ os :=
  List.mem_of_find?_eq_some h

theorem findProduct_map_preserving {g : Product → Product} (hg : ∀ p, (g p).id = p.id)
    (ps : List Product) (pid : Nat) :
    findProduct (ps.map g) pid = (findProduct ps pid).map g := by
  unfold findProduct
  rw [List.find?_map]
  have hpred : ((fun p => p.id == pid) ∘ g) = (fun p : Product => p.id == pid) := by
    funext p
    simp [Function.comp, hg]
  rw [hpred]

theorem findOrder_map_preserving {g : Order → Order} (hg : ∀ o, (g o).id = o.id)
    (os : List Order) (oid : Nat) :
    findOrder (os.map g) oid = (findOrder os oid).map g := by
  unfold findOrder
  rw [List.find?_map]
  have hpred : ((fun o => o.id == oid) ∘ g) = (fun o : Order => o.id == oid) := by
    funext o
    simp [Function.comp, hg]
  rw [hpred]

theorem findProduct_adjustQuantity (ps : List Product) (pid : Nat) (d : Int) (pid' : Nat) :
    findProduct (adjustQuantity ps pid d) pid' =
      (findProduct ps pid').map
        (fun p => if p.id == pid then { p with quantity := p.quantity + d } else p) := by
  apply findProduct_map_preserving
  intro p
  by_cases h : p.id = pid <;> simp [h]

theorem findProduct_adjustQuantity_eq (ps : List Product) (pid : Nat) (d : Int) :
    findProduct (adjustQuantity ps pid d) pid =
      (findProduct ps pid).map (fun p => { p with quantity := p.quantity + d }) := by
  rw [findProduct_adjustQuantity]
  cases h : findProduct ps pid with
  | none => rfl
  | some p => simp [findProduct_id h]

theorem findProduct_adjustQuantity_ne (ps : List Product) (pid : Nat) (d : Int)
    (pid' : Nat) (hne : pid' ≠ pid) :
    findProduct (adjustQuantity ps pid d) pid' = findProduct ps pid' := by
  rw [findProduct_adjustQuantity]
  cases h : findProduct ps pid' with
  | none => rfl
  | some p => simp [findProduct_id h, hne]

theorem map_id_adjustQuantity (ps : List Product) (pid : Nat) (d : Int) :
    (adjustQuantity ps pid d).map Product.id = ps.map Product.id := by
  unfold adjustQuantity
  rw [List.map_map]
  apply List.map_congr_left
  intro p _
  by_cases h : p.id = pid <;> simp [h]

theorem map_id_deductAll (items : List OrderItemCreate) (ps : List Product) :
    (deductAll ps items).map Product.id = ps.map Product.id := by
  induction items generalizing ps with
  | nil => rfl
  | cons it rest ih => rw [deductAll, ih, map_id_adjustQuantity]

theorem map_id_restoreAll (items : List OrderItem) (ps : List Product) :
    (restoreAll ps items).map Product.id = ps.map Product.id := by
  induction items generalizing ps with
  | nil => rfl
  | cons it rest ih =>
    rw [restoreAll]
    cases h : findProduct ps it.product_id with
    | none => simpa [h] using ih ps
    | some p => simp only [h]; rw [ih, map_id_adjustQuantity]

theorem findProduct_deductAll (items : List OrderItemCreate) (ps : List Product) (pid : Nat) :
    findProduct (deductAll ps items) pid =
      (findProduct ps pid).map (fun p =>
        { p with quantity := p.quantity -
            ((items.filter (fun it => it.product_id == pid)).map
              (fun it => it.quantity)).sum }) := by
  induction items generalizing ps with
  | nil =>
    cases h : findProduct ps pid <;> simp [deductAll, h]
  | cons it rest ih =>
    rw [deductAll, ih]
    by_cases hpe : it.product_id = pid
    · subst hpe
      rw [findProduct_adjustQuantity_eq]
      cases h : findProduct ps it.product_id with
      | none => simp
      | some p =>
        simp only [Option.map_some', List.filter_cons, beq_self_eq_true, if_true,
          List.map_cons, List.sum_cons, Option.some.injEq]
        congr 1
        omega
    · rw [findProduct_adjustQuantity_ne _ _ _ _ (fun h => hpe h.symm)]
      have : (it.product_id == pid) = false := by simpa using hpe
      simp [List.filter_cons, this]

theorem findProduct_restoreAll (items : List OrderItem) (ps : List Product) (pid : Nat) :
    findProduct (restoreAll ps items) pid =
      (findProduct ps pid).map (fun p =>
        { p with quantity := p.quantity +
            ((items.filter (fun it => it.product_id == pid)).map
              (fun it => it.quantity)).sum }) := by
  induction items generalizing ps with
  | nil =>
    cases h : findProduct ps pid <;> simp [restoreAll, h]
  | cons it rest ih =>
    rw [restoreAll]
    by_cases hpe : it.product_id = pid
    · subst hpe
      cases h : findProduct ps it.product_id with
      | none =>
        simp only [h]
        rw [ih, h]
        rfl
      | some p =>
        simp only [h]
        rw [ih, findProduct_adjustQuantity_eq, h]
        simp only [Option.map_some', List.filter_cons, beq_self_eq_true, if_true,
          List.map_cons, List.sum_cons, Option.some.injEq]
        congr 1
        omega
    · have hfc : (it.product_id == pid) = false := by simpa using hpe
      cases h : findProduct ps it.product_id with
      | none =>
        simp only [h]
        rw [ih]
        simp [List.filter_cons, hfc]
      | some p =>
        simp only [h]
        rw [ih, findProduct_adjustQuantity_ne _ _ _ _ (fun hh => hpe hh.symm)]
        simp [List.filter_cons, hfc]

/-!
## Lemmas: the batch-lookup guard of `create_order`
-/

theorem findProduct_of_mem {ps : List Product} (nd : (ps.map Product.id).Nodup)
    {p : Product} (hp : p ∈ ps) : findProduct ps p.id = some p := by
  induction ps with
  | nil => cases hp
  | cons q ps ih =>
    rcases List.mem_cons.mp hp with rfl | hp2
    · simp [findProduct, List.find?_cons_of_pos]
    · have hq : (q.id == p.id) = false := by
        simp only [beq_eq_false_iff_ne, ne_eq]
        intro he
        exact (List.nodup_cons.mp nd).1 (he ▸ List.mem_map_of_mem Product.id hp2)
      unfold findProduct
      rw [List.find?_cons_of_neg _ (by simp [hq])]
      exact ih (List.nodup_cons.mp nd).2 hp2

theorem mem_foundProducts {db : DB} {od : OrderCreate} {p : Product} :
    p ∈ foundProducts db od ↔ p ∈ db.products ∧ p.id ∈ requestedIds od := by
  simp [foundProducts, List.mem_filter]

theorem nodup_foundProducts_ids {db : DB} (od : OrderCreate)
    (h : (db.products.map Product.id).Nodup) :
    ((foundProducts db od).map Product.id).Nodup :=
  List.Nodup.sublist ((List.filter_sublist _).map Product.id) h

theorem find?_filter_of_imp (l : List Product) (q f : Product → Bool)
    (h : ∀ x, q x = true → f x = true) : (l.filter f).find? q = l.find? q := by
  induction l with
  | nil => rfl
  | cons x l ih =>
    by_cases hq : q x = true
    · rw [List.filter_cons, if_pos (h x hq), List.find?_cons_of_pos _ hq,
        List.find?_cons_of_pos _ hq]
    · by_cases hf : f x = true
      · rw [List.filter_cons, if_pos hf, List.find?_cons_of_neg _ hq,
          List.find?_cons_of_neg _ hq, ih]
      · rw [List.filter_cons, if_neg hf, List.find?_cons_of_neg _ hq, ih]

theorem findProduct_foundProducts (db : DB) (od : OrderCreate) (pid : Nat)
    (h : pid ∈ requestedIds od) :
    findProduct (foundProducts db od) pid = findProduct db.products pid := by
  apply find?_filter_of_imp
  intro p hq
  have he : p.id = pid := by simpa using hq
  simpa [he]

theorem createOrder_guard_iff (db : DB) (od : OrderCreate)
    (hnd : (db.products.map Product.id).Nodup) :
    (foundProducts db od).length = (requestedIds od).length ↔
      (requestedIds od).Nodup ∧
        ∀ pid ∈ requestedIds od, (findProduct db.products pid).isSome := by
  have hfnd : ((foundProducts db od).map Product.id).Nodup := nodup_foundProducts_ids od hnd
  have hlen : ((foundProducts db od).map Product.id).length = (foundProducts db od).length := by
    simp
  have hsub : ∀ x ∈ (foundProducts db od).map Product.id, x ∈ requestedIds od := by
    intro x hx
    rcases List.mem_map.mp hx with ⟨p, hp, rfl⟩
    exact (mem_foundProducts.mp hp).2
  constructor
  · intro hEq
    have hnd2 : (requestedIds od).Nodup := by
      by_contra hcon
      have hsubperm : List.Subperm ((foundProducts db od).map Product.id) (requestedIds od).dedup :=
        hfnd.subperm (fun x hx => List.mem_dedup.mpr (hsub _ hx))
      have h1 := hsubperm.length_le
      have hdsub := (requestedIds od).dedup_sublist
      have h2 : (requestedIds od).dedup.length ≤ (requestedIds od).length := hdsub.length_le
      have h3 : (requestedIds od).dedup.length ≠ (requestedIds od).length := by
        intro he
        exact hcon (by rw [← List.dedup_eq_self]; exact hdsub.eq_of_length he)
      omega
    refine ⟨hnd2, ?_⟩
    intro pid hpid
    by_contra hnone
    rw [Option.not_isSome_iff_eq_none] at hnone
    have habs : ∀ x ∈ db.products, ¬(x.id == pid) = true := List.find?_eq_none.mp hnone
    have hnotmem : pid ∉ (foundProducts db od).map Product.id := by
      intro hx
      rcases List.mem_map.mp hx with ⟨p, hp, he⟩
      exact habs p (mem_foundProducts.mp hp).1 (by simp [he])
    have hsubperm :
        List.Subperm ((foundProducts db od).map Product.id) (((requestedIds od).dedup).erase pid) := by
      apply hfnd.subperm
      intro x hx
      have hxne : x ≠ pid := by
        intro he
        rw [he] at hx
        exact hnotmem hx
      exact (List.mem_erase_of_ne hxne).mpr (List.mem_dedup.mpr (hsub _ hx))
    have h1 := hsubperm.length_le
    have h2 : (((requestedIds od).dedup).erase pid).length = (requestedIds od).dedup.length - 1 :=
      List.length_erase_of_mem (List.mem_dedup.mpr hpid)
    have h3 : (requestedIds od).dedup.length ≤ (requestedIds od).length :=
      (requestedIds od).dedup_sublist.length_le
    have h4 : 0 < (requestedIds od).dedup.length :=
      List.length_pos_of_mem (List.mem_dedup.mpr hpid)
    omega
  · rintro ⟨hnd2, hall⟩
    have h1 := (hfnd.subperm hsub).length_le
    have h2 : List.Subperm (requestedIds od) ((foundProducts db od).map Product.id) := by
      apply hnd2.subperm
      intro pid hpid
      rcases Option.isSome_iff_exists.mp (hall pid hpid) with ⟨p, hp⟩
      have hpid2 : p.id = pid := findProduct_id hp
      have hpm : p ∈ foundProducts db od :=
        mem_foundProducts.mpr ⟨findProduct_mem hp, by rw [hpid2]; exact hpid⟩
      rw [← hpid2]
      exact List.mem_map_of_mem Product.id hpm
    have h3 := h2.length_le
    omega

theorem createOrder_missing_eq (db : DB) (od : OrderCreate) :
    (requestedIds od).filter
        (fun pid => !((foundProducts db od).any (fun p => p.id == pid))) =
      (requestedIds od).filter (fun pid => (findProduct db.products pid).isNone) := by
  apply List.filter_congr
  intro pid hpid
  have hiff : ((foundProducts db od).any (fun p => p.id == pid)) =
      (findProduct db.products pid).isSome := by
    by_cases h : (findProduct db.products pid).isSome
    · rcases Option.isSome_iff_exists.mp h with ⟨p, hp⟩
      have hany : (foundProducts db od).any (fun p => p.id == pid) = true :=
        List.any_eq_true.mpr
          ⟨p, mem_foundProducts.mpr ⟨findProduct_mem hp, by rw [findProduct_id hp]; exact hpid⟩,
            by simp [findProduct_id hp]⟩
      rw [hany, h]
    · have habs := List.find?_eq_none.mp (Option.not_isSome_iff_eq_none.mp h)
      have hany : (foundProducts db od).any (fun p => p.id == pid) = false := by
        rw [List.any_eq_false]
        intro p hp
        exact habs p (mem_foundProducts.mp hp).1
      rw [hany, Option.not_isSome_iff_eq_none.mp h]
      rfl
  rw [hiff]
  cases findProduct db.products pid <;> rfl

/-!
## Lemmas: the stock-check scan and line filters
-/

theorem firstShortLine_eq_none_iff (found : List Product) (items : List OrderItemCreate) :
    firstShortLine found items = none ↔
      ∀ it ∈ items, ∀ p, findProduct found it.product_id = some p →
        ¬(p.quantity < it.quantity) := by
  induction items with
  | nil => simp [firstShortLine]
  | cons it rest ih =>
    rw [firstShortLine]
    cases h : findProduct found it.product_id with
    | none =>
      simp only [List.forall_mem_cons, h]
      rw [ih]
      constructor
      · intro hr
        exact ⟨fun p hp => absurd hp (by simp), hr⟩
      · intro hall
        exact hall.2
    | some p =>
      by_cases hlt : p.quantity < it.quantity
      · simp only [if_pos hlt, List.forall_mem_cons, h]
        constructor
        · intro hc
          cases hc
        · intro hall
          exact absurd hlt (hall.1 p rfl)
      · simp only [if_neg hlt, List.forall_mem_cons, h]
        rw [ih]
        constructor
        · intro hr
          refine ⟨fun p2 hp2 => ?_, hr⟩
          obtain rfl : p = p2 := by simpa using hp2
          exact hlt
        · intro hall
          exact hall.2

theorem firstShortLine_some {found : List Product} {items : List OrderItemCreate}
    {nm : String} {a r : Int}
    (h : firstShortLine found items = some (nm, a, r)) :
    ∃ it ∈ items, ∃ p, findProduct found it.product_id = some p ∧
      nm = p.name ∧ a = p.quantity ∧ r = it.quantity ∧ p.quantity < it.quantity := by
  induction items with
  | nil => simp [firstShortLine] at h
  | cons it rest ih =>
    rw [firstShortLine] at h
    cases hf : findProduct found it.product_id with
    | none =>
      simp only [hf] at h
      rcases ih h with ⟨it2, hm, hrest⟩
      exact ⟨it2, List.mem_cons_of_mem _ hm, hrest⟩
    | some p =>
      simp only [hf] at h
      by_cases hlt : p.quantity < it.quantity
      · rw [if_pos hlt] at h
        simp only [Option.some.injEq, Prod.mk.injEq] at h
        obtain ⟨h1, h2, h3⟩ := h
        exact ⟨it, List.mem_cons_self _ _, p, hf, h1.symm, h2.symm, h3.symm, hlt⟩
      · rw [if_neg hlt] at h
        rcases ih h with ⟨it2, hm, hrest⟩
        exact ⟨it2, List.mem_cons_of_mem _ hm, hrest⟩

theorem lineFilter_eq_nil_or_single {l : List OrderItemCreate}
    (nd : (l.map (fun it => it.product_id)).Nodup) (x : Nat) :
    (l.filter (fun it => it.product_id == x)) = [] ∨
      ∃ it0, it0 ∈ l ∧ it0.product_id = x ∧
        l.filter (fun it => it.product_id == x) = [it0] := by
  induction l with
  | nil => left; rfl
  | cons it rest ih =>
    have hnd := List.nodup_cons.mp nd
    by_cases h : it.product_id = x
    · right
      refine ⟨it, List.mem_cons_self _ _, h, ?_⟩
      have hrest : rest.filter (fun it => it.product_id == x) = [] := by
        rw [List.filter_eq_nil_iff]
        intro it2 hm
        simp only [beq_iff_eq]
        intro he
        apply hnd.1
        show it.product_id ∈ rest.map (fun it => it.product_id)
        rw [h, ← he]
        exact List.mem_map_of_mem _ hm
      simp [List.filter_cons, h, hrest]
    · have hfc : (it.product_id == x) = false := by simpa using h
      rcases ih hnd.2 with h0 | ⟨it0, hm, he, hf⟩
      · left
        simp [List.filter_cons, hfc, h0]
      · right
        exact ⟨it0, List.mem_cons_of_mem _ hm, he, by simp [List.filter_cons, hfc, hf]⟩

/-!
## Lemmas: order-row updates
-/

theorem findOrder_setOrderStatus (os : List Order) (oid : Nat) (t : OrderStatus) :
    findOrder (setOrderStatus os oid t) oid =
      (findOrder os oid).map (fun o => { o with status := t }) := by
  unfold setOrderStatus
  rw [findOrder_map_preserving (fun o => by by_cases h : o.id = oid <;> simp [h])]
  cases h : findOrder os oid with
  | none => rfl
  | some o => simp [findOrder_id h]

theorem findOrder_setPaymentStatus (os : List Order) (oid : Nat) (ps : PaymentStatus) :
    findOrder (setPaymentStatus os oid ps) oid =
      (findOrder os oid).map (fun o => { o with payment_status := ps }) := by
  unfold setPaymentStatus
  rw [findOrder_map_preserving (fun o => by by_cases h : o.id = oid <;> simp [h])]
  cases h : findOrder os oid with
  | none => rfl
  | some o => simp [findOrder_id h]

theorem setPaymentStatus_idem (os : List Order) (oid : Nat) (ps : PaymentStatus) :
    setPaymentStatus (setPaymentStatus os oid ps) oid ps = setPaymentStatus os oid ps := by
  unfold setPaymentStatus
  rw [List.map_map]
  apply List.map_congr_left
  intro o _
  by_cases h : o.id = oid <;> simp [Function.comp, h]

theorem setOrderStatus_of_same {os : List Order} {oid : Nat} {o : Order}
    (nd : (os.map Order.id).Nodup) (hf : findOrder os oid = some o) {t : OrderStatus}
    (ht : o.status = t) : setOrderStatus os oid t = os := by
  induction os with
  | nil => rfl
  | cons q os ih =>
    have hnd := List.nodup_cons.mp (show (Order.id q :: os.map Order.id).Nodup from nd)
    unfold setOrderStatus
    simp only [List.map_cons]
    by_cases h : q.id = oid
    · have hfq : findOrder (q :: os) oid = some q := by
        unfold findOrder
        rw [List.find?_cons_of_pos _ (by simp [h])]
      rw [hfq] at hf
      obtain rfl : q = o := by simpa using hf
      have hq : (q.id == oid) = true := by simpa using h
      have hpt : ∀ o2 ∈ os, (if o2.id == oid then { o2 with status := t } else o2) = o2 := by
        intro o2 hm
        have hne : (o2.id == oid) = false := by
          simp only [beq_eq_false_iff_ne, ne_eq]
          intro he
          apply hnd.1
          show q.id ∈ os.map Order.id
          rw [h, ← he]
          exact List.mem_map_of_mem _ hm
        simp [hne]
      have hrest : os.map (fun o2 => if o2.id == oid then { o2 with status := t } else o2) = os :=
        (List.map_congr_left hpt).trans (List.map_id os)
      rw [hrest]
      simp [hq, ← ht]
    · have hq : (q.id == oid) = false := by simpa using h
      have hfq : findOrder (q :: os) oid = findOrder os oid := by
        unfold findOrder
        rw [List.find?_cons_of_neg _ (by simp [hq])]
      rw [hfq] at hf
      have hih := ih hnd.2 hf
      unfold setOrderStatus at hih
      rw [hih]
      simp [hq]

/-!
## Lemmas: digest shape
-/

theorem sha256Round_length {st : List Nat} (h : st.length = 8) (kw : Nat) :
    (sha256Round st kw).length = 8 := by
  rcases st with _ | ⟨a, _ | ⟨b, _ | ⟨c, _ | ⟨d, _ | ⟨e, _ | ⟨f, _ | ⟨g, _ | ⟨h2, _ | ⟨i, t⟩⟩⟩⟩⟩⟩⟩⟩⟩ <;>
    first
      | rfl
      | (exfalso; simp at h)

theorem foldl_sha256Round_length (l : List (Nat × Nat)) :
    ∀ H : List Nat, H.length = 8 →
      (l.foldl (fun s p => sha256Round s (p.1 + p.2)) H).length = 8 := by
  induction l with
  | nil =>
    intro H h
    simpa using h
  | cons x l ih =>
    intro H h
    exact ih _ (sha256Round_length h _)

theorem sha256Compress_length {H : List Nat} (h : H.length = 8) (block : List Nat) :
    (sha256Compress H block).length = 8 := by
  unfold sha256Compress
  rw [List.length_map, List.length_zip, h,
    foldl_sha256Round_length _ H h]
  rfl

theorem foldl_sha256Compress_length (blocks : List (List Nat)) :
    ∀ H : List Nat, H.length = 8 → (blocks.foldl sha256Compress H).length = 8 := by
  induction blocks with
  | nil =>
    intro H h
    simpa using h
  | cons b bs ih =>
    intro H h
    exact ih _ (sha256Compress_length h b)

theorem beBytes_length (n k : Nat) : (beBytes n k).length = k := by
  induction k generalizing n with
  | zero => rfl
  | succ k ih => simp [beBytes, ih]

theorem sum_word_byte_lengths (Hf : List Nat) :
    ((Hf.map (fun wrd => beBytes wrd 4)).map List.length).sum = 4 * Hf.length := by
  induction Hf with
  | nil => rfl
  | cons w Hf ih =>
    simp only [List.map_cons, List.sum_cons, beBytes_length, ih, List.length_cons]
    omega

theorem sha256_length (msg : List Nat) : (sha256 msg).length = 32 := by
  unfold sha256
  rw [List.length_flatten, sum_word_byte_lengths,
    foldl_sha256Compress_length _ sha256H0 rfl]

theorem hexdigest_ne_empty {bytes : List Nat} (h : bytes ≠ []) : hexdigest bytes ≠ "" := by
  unfold hexdigest
  intro he
  rw [String.ext_iff] at he
  cases bytes with
  | nil => exact h rfl
  | cons b bs => simp [byteToHex] at he

theorem hmacSha256Hexdigest_ne_empty (secret body : List Nat) :
    hmacSha256Hexdigest secret body ≠ "" := by
  unfold hmacSha256Hexdigest
  apply hexdigest_ne_empty
  have h32 : (hmacSha256 secret body).length = 32 := sha256_length _
  intro he
  rw [he] at h32
  simp at h32

/-!
## Claim theorems
-/

/-- C5: the status-transition validator accepts exactly Pending→Completed,
Pending→Canceled, and every self-transition X→X; every other pair is rejected
with an `InvalidTransitionError` (HTTP 400) naming the two states.  The
validator is pure by construction: it is a function of the two statuses alone
and touches no state. -/
theorem claim_C5_status_machine (c n : OrderStatus) :
    (validate_status_transition c n = .ok () ↔
      c = n ∨ (c = .pending ∧ (n = .completed ∨ n = .canceled))) ∧
    (validate_status_transition c n = .error (.invalidTransition c n) ↔
      ¬(c = n ∨ (c = .pending ∧ (n = .completed ∨ n = .canceled)))) := by
  cases c <;> cases n <;> decide

/-- C10: a Canceled→Canceled self-transition on an already-canceled order
succeeds as a strict no-op — the state (in particular every product's
quantity) is returned unchanged, because the restoration branch requires the
current status to be Pending. -/
theorem claim_C10_cancel_canceled_noop {db : DB} {oid : Nat} {o : Order}
    (nd : (db.orders.map Order.id).Nodup)
    (hf : findOrder db.orders oid = some o) (hst : o.status = .canceled) :
    update_order_status db oid .canceled = .ok (some db) := by
  unfold update_order_status
  simp only [hf]
  rw [hst]
  rw [setOrderStatus_of_same nd hf hst]
  simp [validate_status_transition]

/-- C10 witness: cancelling an already-canceled one-line order changes
nothing even though the referenced product is in stock. -/
theorem claim_C10_witness :
    update_order_status
        { products := [{ id := 5, name := "w", description := none, price := 3, quantity := 7 }],
          orders := [{ id := 1, customer_id := 2, total_price := 6, status := .canceled,
                       payment_status := .unpaid,
                       order_items := [{ product_id := 5, quantity := 2,
                                         price_at_purchase := 3 }] }] }
        1 .canceled =
      .ok (some
        { products := [{ id := 5, name := "w", description := none, price := 3, quantity := 7 }],
          orders := [{ id := 1, customer_id := 2, total_price := 6, status := .canceled,
                       payment_status := .unpaid,
                       order_items := [{ product_id := 5, quantity := 2,
                                         price_at_purchase := 3 }] }] }) :=
  claim_C10_cancel_canceled_noop
    (o := ⟨1, 2, 6, .canceled, .unpaid, [⟨5, 2, 3⟩]⟩) (by decide) (by decide) rfl

/-- C7: the payment webhook is idempotent.  For an existing Pending order and
an event status in {Paid, Failed}, delivering the event succeeds, and
delivering the identical event again succeeds and returns exactly the same
state: the second application changes nothing. -/
theorem claim_C7_webhook_idempotent {db : DB} {oid : Nat} {o : Order} {ps : PaymentStatus}
    (hf : findOrder db.orders oid = some o) (hst : o.status = .pending)
    (hps : ps = .paid ∨ ps = .failed) :
    ∃ db2, process_payment_webhook db oid ps = .ok db2 ∧
      process_payment_webhook db2 oid ps = .ok db2 := by
  have hmem : ps ∈ [PaymentStatus.paid, PaymentStatus.failed] := by
    rcases hps with rfl | rfl <;> simp
  refine ⟨{ db with orders := setPaymentStatus db.orders oid ps }, ?_, ?_⟩
  · simp [process_payment_webhook, update_payment_status, hf, hmem, hst]
  · have hf2 : findOrder (setPaymentStatus db.orders oid ps) oid =
        some { o with payment_status := ps } := by
      rw [findOrder_setPaymentStatus, hf]
      rfl
    simp [process_payment_webhook, update_payment_status, hf2, hmem, hst, setPaymentStatus_idem]

/-- C7 witness: delivering the same `paid` event twice to a Pending order. -/
theorem claim_C7_witness :
    ∃ db2,
      process_payment_webhook
          { products := [],
            orders := [{ id := 1, customer_id := 2, total_price := 6, status := .pending,
                         payment_status := .unpaid, order_items := [] }] } 1 .paid = .ok db2 ∧
      process_payment_webhook db2 1 .paid = .ok db2 :=
  claim_C7_webhook_idempotent
    (o := ⟨1, 2, 6, .pending, .unpaid, []⟩) (by decide) rfl (Or.inl rfl)

/-- C4: falsified by the code — `update_payment_status` checks only that the
ORDER status is Pending and never consults the current payment status (the
`validate_payment_status_update` helper that would enforce "once Paid it
cannot be changed" exists in `app/utils/validators.py` but has no caller),
so the webhook path happily moves a Pending order's payment status from Paid
to Failed, while the repository's own unused validator rejects exactly that
update. -/
theorem claim_C4_paid_not_frozen_bug :
    process_payment_webhook
        { products := [],
          orders := [{ id := 1, customer_id := 7, total_price := 10, status := .pending,
                       payment_status := .paid, order_items := [] }] } 1 .failed =
      .ok { products := [],
            orders := [{ id := 1, customer_id := 7, total_price := 10, status := .pending,
                         payment_status := .failed, order_items := [] }] } ∧
    validate_payment_status_update .pending .paid .failed = .error .alreadyPaid := by
  constructor
  · decide
  · decide

/-!
## Lemmas: the three outcomes of `create_order`
-/

theorem create_order_guard_fail {db : DB} {od : OrderCreate} (nid : Nat)
    (hg : (foundProducts db od).length ≠ (requestedIds od).length) :
    create_order db nid od =
      .error (.notFound ((requestedIds od).filter
        (fun pid => !((foundProducts db od).any (fun p => p.id == pid))))) := by
  simp only [create_order]
  rw [if_pos hg]

theorem create_order_short {db : DB} {od : OrderCreate} (nid : Nat)
    {nm : String} {a r : Int}
    (hg : (foundProducts db od).length = (requestedIds od).length)
    (hs : firstShortLine (foundProducts db od) od.products = some (nm, a, r)) :
    create_order db nid od = .error (.insufficientStock nm a r) := by
  simp only [create_order]
  rw [if_neg (fun hc => hc hg), hs]

theorem create_order_success {db : DB} {od : OrderCreate} (nid : Nat)
    (hg : (foundProducts db od).length = (requestedIds od).length)
    (hs : firstShortLine (foundProducts db od) od.products = none) :
    create_order db nid od =
      .ok { products := deductAll db.products od.products,
            orders := db.orders ++
              [{ id := nid, customer_id := od.customer_id,
                 total_price := (od.products.map (fun it =>
                   priceOf (foundProducts db od) it.product_id * (it.quantity : ℚ))).sum,
                 status := .pending, payment_status := .unpaid,
                 order_items := od.products.map (fun it =>
                   OrderItem.mk it.product_id it.quantity
                     (priceOf (foundProducts db od) it.product_id)) }] } := by
  simp only [create_order]
  rw [if_neg (fun hc => hc hg), hs]

theorem create_order_cases {db : DB} {od : OrderCreate} (nid : Nat) :
    (∃ miss, create_order db nid od = .error (.notFound miss)) ∨
    (∃ nm a r, create_order db nid od = .error (.insufficientStock nm a r)) ∨
    (∃ db2, create_order db nid od = .ok db2) := by
  by_cases hg : (foundProducts db od).length = (requestedIds od).length
  · cases hs : firstShortLine (foundProducts db od) od.products with
    | none => exact Or.inr (Or.inr ⟨_, create_order_success nid hg hs⟩)
    | some trip =>
      obtain ⟨nm, a, r⟩ := trip
      exact Or.inr (Or.inl ⟨nm, a, r, create_order_short nid hg hs⟩)
  · exact Or.inl ⟨_, create_order_guard_fail nid hg⟩

/-- C3: for every successfully created order, `total_price` is exactly the
sum over its lines of `price_at_purchase × quantity` in exact rational
(fixed-point) arithmetic, each line's `price_at_purchase` is the referenced
product's price in the pre-creation state, and `update_product` never touches
the orders table, so later price updates change no existing order. -/
theorem claim_C3_total_price {db : DB} {nid : Nat} {od : OrderCreate} {db2 : DB}
    (hinv : (db.products.map Product.id).Nodup)
    (hok : create_order db nid od = .ok db2) :
    ∃ newOrder : Order,
      db2.orders = db.orders ++ [newOrder] ∧
      newOrder.total_price =
        (newOrder.order_items.map (fun it => it.price_at_purchase * (it.quantity : ℚ))).sum ∧
      (∀ it ∈ newOrder.order_items, ∃ p, findProduct db.products it.product_id = some p ∧
        it.price_at_purchase = p.price) ∧
      (∀ db3 : DB, ∀ pid : Nat, ∀ u : ProductUpdate,
        (update_product db3 pid u).orders = db3.orders) := by
  by_cases hg : (foundProducts db od).length = (requestedIds od).length
  · cases hs : firstShortLine (foundProducts db od) od.products with
    | some trip =>
      obtain ⟨nm, a, r⟩ := trip
      rw [create_order_short nid hg hs] at hok
      cases hok
    | none =>
      rw [create_order_success nid hg hs] at hok
      obtain rfl : _ = db2 := congrArg (fun e => match e with | Except.ok d => d | _ => db) hok
      refine ⟨_, rfl, ?_, ?_, ?_⟩
      · simp only [List.map_map]
        rfl
      · intro it hit
        rcases List.mem_map.mp hit with ⟨it0, hit0, rfl⟩
        have hpid : it0.product_id ∈ requestedIds od := List.mem_map_of_mem _ hit0
        have hsome := (createOrder_guard_iff db od hinv).mp hg |>.2 it0.product_id hpid
        rcases Option.isSome_iff_exists.mp hsome with ⟨p, hp⟩
        refine ⟨p, hp, ?_⟩
        show priceOf (foundProducts db od) it0.product_id = p.price
        rw [priceOf, findProduct_foundProducts db od _ hpid, hp]
      · intro db3 pid u
        unfold update_product
        cases findProduct db3.products pid <;> rfl
  · rw [create_order_guard_fail nid hg] at hok
    cases hok

/-- C3 witness: an order of 2 units at price 2 and 3 units at price 4 is
created with total price 16; each line snapshots the catalog price. -/
theorem claim_C3_witness :
    ∃ newOrder : Order,
      (DB.mk [⟨1, "a", none, 2, 3⟩, ⟨2, "b", none, 4, 6⟩]
          [⟨100, 9, 16, .pending, .unpaid, [⟨1, 2, 2⟩, ⟨2, 3, 4⟩]⟩]).orders =
        (DB.mk [⟨1, "a", none, 2, 5⟩, ⟨2, "b", none, 4, 9⟩] []).orders ++ [newOrder] ∧
      newOrder.total_price =
        (newOrder.order_items.map (fun it => it.price_at_purchase * (it.quantity : ℚ))).sum ∧
      (∀ it ∈ newOrder.order_items, ∃ p,
        findProduct (DB.mk [⟨1, "a", none, 2, 5⟩, ⟨2, "b", none, 4, 9⟩] []).products
          it.product_id = some p ∧
        it.price_at_purchase = p.price) ∧
      (∀ db3 : DB, ∀ pid : Nat, ∀ u : ProductUpdate,
        (update_product db3 pid u).orders = db3.orders) :=
  @claim_C3_total_price
    (DB.mk [⟨1, "a", none, 2, 5⟩, ⟨2, "b", none, 4, 9⟩] []) 100 ⟨9, [⟨1, 2⟩, ⟨2, 3⟩]⟩
    (DB.mk [⟨1, "a", none, 2, 3⟩, ⟨2, "b", none, 4, 6⟩]
      [⟨100, 9, 16, .pending, .unpaid, [⟨1, 2, 2⟩, ⟨2, 3, 4⟩]⟩])
    (by decide)
    (by
      rw [create_order_success 100 (by decide) (by decide)]
      refine congrArg Except.ok (congrArg₂ DB.mk (by decide) ?_)
      rw [List.nil_append]
      refine congrArg (fun o => [o]) ?_
      have hp1 : priceOf (foundProducts (DB.mk [⟨1, "a", none, 2, 5⟩, ⟨2, "b", none, 4, 9⟩] [])
          ⟨9, [⟨1, 2⟩, ⟨2, 3⟩]⟩) 1 = 2 := rfl
      have hp2 : priceOf (foundProducts (DB.mk [⟨1, "a", none, 2, 5⟩, ⟨2, "b", none, 4, 9⟩] [])
          ⟨9, [⟨1, 2⟩, ⟨2, 3⟩]⟩) 2 = 4 := rfl
      congr 1
      simp only [List.map_cons, List.map_nil, List.sum_cons, List.sum_nil, hp1, hp2]
      push_cast
      norm_num)

/-- C6: cancelling a Pending order succeeds and restores inventory: each
product's quantity grows by exactly the total quantity of the order's lines
that reference it (a single line of quantity q adds exactly q); a line whose
product no longer exists is skipped silently (the product stays absent, the
cancellation still succeeds); cancelling a Completed order is rejected with
`InvalidTransitionError`. -/
theorem claim_C6_cancellation_restores {db : DB} {oid : Nat} {o : Order}
    (hf : findOrder db.orders oid = some o) :
    (o.status = .pending →
      update_order_status db oid .canceled =
        .ok (some { products := restoreAll db.products o.order_items,
                    orders := setOrderStatus db.orders oid .canceled }) ∧
      (∀ pid p, findProduct db.products pid = some p →
        findProduct (restoreAll db.products o.order_items) pid =
          some { p with quantity := p.quantity +
            ((o.order_items.filter (fun it => it.product_id == pid)).map
              (fun it => it.quantity)).sum }) ∧
      (∀ pid, findProduct db.products pid = none →
        findProduct (restoreAll db.products o.order_items) pid = none)) ∧
    (o.status = .completed →
      update_order_status db oid .canceled =
        .error (.invalidTransition .completed .canceled)) := by
  constructor
  · intro hst
    refine ⟨?_, ?_, ?_⟩
    · unfold update_order_status
      simp only [hf]
      rw [hst]
      simp [validate_status_transition, allowedStatusTransitions]
    · intro pid p hp
      rw [findProduct_restoreAll, hp]
      rfl
    · intro pid hp
      rw [findProduct_restoreAll, hp]
      rfl
  · intro hst
    unfold update_order_status
    simp only [hf]
    rw [hst]
    simp [validate_status_transition, allowedStatusTransitions]

/-- C6 witness: cancelling a Pending order with one line (product 5,
quantity 2) restores product 5 from quantity 7 to 9; a second line whose
product 6 was deleted is skipped and stays absent. -/
theorem claim_C6_witness :
    (update_order_status
        (DB.mk [⟨5, "w", none, 3, 7⟩]
          [⟨1, 2, 6, .pending, .unpaid, [⟨5, 2, 3⟩, ⟨6, 1, 3⟩]⟩]) 1 .canceled =
      .ok (some { products := restoreAll [⟨5, "w", none, 3, 7⟩] [⟨5, 2, 3⟩, ⟨6, 1, 3⟩],
                  orders := setOrderStatus
                    [⟨1, 2, 6, .pending, .unpaid, [⟨5, 2, 3⟩, ⟨6, 1, 3⟩]⟩] 1 .canceled })) ∧
    findProduct (restoreAll [⟨5, "w", none, 3, 7⟩] [⟨5, 2, 3⟩, ⟨6, 1, 3⟩]) 5 =
      some ⟨5, "w", none, 3, 9⟩ ∧
    findProduct (restoreAll [⟨5, "w", none, 3, 7⟩] [⟨5, 2, 3⟩, ⟨6, 1, 3⟩]) 6 = none := by
  have h := (@claim_C6_cancellation_restores
    (DB.mk [⟨5, "w", none, 3, 7⟩] [⟨1, 2, 6, .pending, .unpaid, [⟨5, 2, 3⟩, ⟨6, 1, 3⟩]⟩]) 1
    ⟨1, 2, 6, .pending, .unpaid, [⟨5, 2, 3⟩, ⟨6, 1, 3⟩]⟩ (by decide)).1 rfl
  refine ⟨h.1, ?_, h.2.2 6 (by decide)⟩
  exact (h.2.1 5 ⟨5, "w", none, 3, 7⟩ (by decide)).trans (by decide)

/-- C9: webhook signature verification rejects exactly three situations —
missing (or empty, which Python's falsiness treats the same) `X-Signature`
header, checked first and independently of the body; empty body; and a
provided signature differing from the lowercase hex HMAC-SHA256 of the exact
raw body under the shared secret.  Acceptance holds if and only if the header
equals that digest and the body is nonempty; the comparison is exact string
equality, hence case-sensitive: whenever the uppercased digest differs from
the digest, presenting it is rejected. -/
theorem claim_C9_signature_verification (secret body : List Nat) (sig : String) :
    (verify_webhook_signature secret none body = .error .missingSignature) ∧
    (sig ≠ "" → body = [] →
      verify_webhook_signature secret (some sig) body = .error .emptyBody) ∧
    (body ≠ [] →
      (verify_webhook_signature secret (some sig) body = .ok body ↔
        sig = hmacSha256Hexdigest secret body)) ∧
    (body ≠ [] → sig ≠ hmacSha256Hexdigest secret body →
      (verify_webhook_signature secret (some sig) body = .error .invalidSignature ∨
       verify_webhook_signature secret (some sig) body = .error .missingSignature)) ∧
    (body ≠ [] →
      upperHex (hmacSha256Hexdigest secret body) ≠ hmacSha256Hexdigest secret body →
      ∃ e, verify_webhook_signature secret
        (some (upperHex (hmacSha256Hexdigest secret body))) body = .error e) := by
  refine ⟨rfl, ?_, ?_, ?_, ?_⟩
  · intro hs hb
    simp only [verify_webhook_signature]
    rw [if_neg hs, if_pos hb]
  · intro hb
    simp only [verify_webhook_signature]
    by_cases hs : sig = ""
    · subst hs
      rw [if_pos rfl]
      constructor
      · intro h
        cases h
      · intro h
        exact absurd h.symm (hmacSha256Hexdigest_ne_empty secret body)
    · rw [if_neg hs, if_neg hb]
      by_cases hd : hmacSha256Hexdigest secret body = sig
      · rw [if_pos hd]
        simp [hd.symm]
      · rw [if_neg hd]
        constructor
        · intro h
          cases h
        · intro h
          exact absurd h.symm hd
  · intro hb hne
    simp only [verify_webhook_signature]
    by_cases hs : sig = ""
    · subst hs
      rw [if_pos rfl]
      exact Or.inr rfl
    · rw [if_neg hs, if_neg hb, if_neg (fun h => hne h.symm)]
      exact Or.inl rfl
  · intro hb hU
    simp only [verify_webhook_signature]
    by_cases hs : upperHex (hmacSha256Hexdigest secret body) = ""
    · rw [if_pos hs]
      exact ⟨.missingSignature, rfl⟩
    · rw [if_neg hs, if_neg hb, if_neg (fun h => hU h.symm)]
      exact ⟨.invalidSignature, rfl⟩

/-- C9 witness: for the shared secret `whsec` and the raw body
`{"order_id": 1, "payment_status": "paid"}`, the missing-header case is
rejected, the correct lowercase digest is accepted, and the uppercased
rendering of that same digest is rejected. -/
theorem claim_C9_witness :
    verify_webhook_signature [119, 104, 115, 101, 99] none
        [123, 34, 111, 114, 100, 101, 114, 95, 105, 100, 34, 58, 32, 49, 44, 32, 34, 112,
         97, 121, 109, 101, 110, 116, 95, 115, 116, 97, 116, 117, 115, 34, 58, 32, 34,
         112, 97, 105, 100, 34, 125] = .error .missingSignature ∧
    verify_webhook_signature [119, 104, 115, 101, 99]
        (some (hmacSha256Hexdigest [119, 104, 115, 101, 99]
          [123, 34, 111, 114, 100, 101, 114, 95, 105, 100, 34, 58, 32, 49, 44, 32, 34, 112,
           97, 121, 109, 101, 110, 116, 95, 115, 116, 97, 116, 117, 115, 34, 58, 32, 34,
           112, 97, 105, 100, 34, 125]))
        [123, 34, 111, 114, 100, 101, 114, 95, 105, 100, 34, 58, 32, 49, 44, 32, 34, 112,
         97, 121, 109, 101, 110, 116, 95, 115, 116, 97, 116, 117, 115, 34, 58, 32, 34,
         112, 97, 105, 100, 34, 125] =
      .ok [123, 34, 111, 114, 100, 101, 114, 95, 105, 100, 34, 58, 32, 49, 44, 32, 34, 112,
           97, 121, 109, 101, 110, 116, 95, 115, 116, 97, 116, 117, 115, 34, 58, 32, 34,
           112, 97, 105, 100, 34, 125] ∧
    (∃ e, verify_webhook_signature [119, 104, 115, 101, 99]
        (some (upperHex (hmacSha256Hexdigest [119, 104, 115, 101, 99]
          [123, 34, 111, 114, 100, 101, 114, 95, 105, 100, 34, 58, 32, 49, 44, 32, 34, 112,
           97, 121, 109, 101, 110, 116, 95, 115, 116, 97, 116, 117, 115, 34, 58, 32, 34,
           112, 97, 105, 100, 34, 125])))
        [123, 34, 111, 114, 100, 101, 114, 95, 105, 100, 34, 58, 32, 49, 44, 32, 34, 112,
         97, 121, 109, 101, 110, 116, 95, 115, 116, 97, 116, 117, 115, 34, 58, 32, 34,
         112, 97, 105, 100, 34, 125] = .error e) := by
  have h := claim_C9_signature_verification [119, 104, 115, 101, 99]
      [123, 34, 111, 114, 100, 101, 114, 95, 105, 100, 34, 58, 32, 49, 44, 32, 34, 112,
       97, 121, 109, 101, 110, 116, 95, 115, 116, 97, 116, 117, 115, 34, 58, 32, 34,
       112, 97, 105, 100, 34, 125]
      (hmacSha256Hexdigest [119, 104, 115, 101, 99]
        [123, 34, 111, 114, 100, 101, 114, 95, 105, 100, 34, 58, 32, 49, 44, 32, 34, 112,
         97, 121, 109, 101, 110, 116, 95, 115, 116, 97, 116, 117, 115, 34, 58, 32, 34,
         112, 97, 105, 100, 34, 125])
  exact ⟨h.1, (h.2.2.1 (by decide)).mpr rfl,
    h.2.2.2.2 (by decide) (by set_option maxRecDepth 100000 in decide)⟩

/-- C8 counterexample: the claim's "if and only if" fails.  With catalog
product 1 in stock (quantity 5), an order listing product 1 twice (two lines,
quantity 1 each) has no absent product id, yet `create_order` raises the
not-found error — and its "missing" list is empty, because the guard compares
the count of distinct matching rows (1) with the count of request lines (2). -/
theorem claim_C8_counterexample :
    (∀ pid ∈ requestedIds ⟨9, [⟨1, 1⟩, ⟨1, 1⟩]⟩,
      (findProduct (DB.mk [⟨1, "a", none, 2, 5⟩] []).products pid).isSome) ∧
    create_order (DB.mk [⟨1, "a", none, 2, 5⟩] []) 100 ⟨9, [⟨1, 1⟩, ⟨1, 1⟩]⟩ =
      .error (.notFound []) := by
  constructor
  · decide
  · decide

/-- C8 (amended): `create_order` fails with `NotFoundError` iff some requested
product id is absent from the catalog OR some product id occurs on more than
one line of the request; the listed ids are exactly the requested ids absent
from the catalog (in request order, with multiplicity — empty in the
duplicate-only case); and on any failure the state is unchanged (no order, no
lines, no inventory change). -/
theorem claim_C8_not_found_amended {db : DB} {nid : Nat} {od : OrderCreate}
    (hinv : (db.products.map Product.id).Nodup) :
    ((∃ miss, create_order db nid od = .error (.notFound miss)) ↔
      (¬(requestedIds od).Nodup ∨
        ∃ pid ∈ requestedIds od, findProduct db.products pid = none)) ∧
    (∀ miss, create_order db nid od = .error (.notFound miss) →
      miss = (requestedIds od).filter (fun pid => (findProduct db.products pid).isNone)) ∧
    (∀ e, create_order db nid od = .error e → applyOp db (.createOrder nid od) = db) := by
  have hgi := createOrder_guard_iff db od hinv
  have hguardfail : (∃ miss, create_order db nid od = .error (.notFound miss)) ↔
      (foundProducts db od).length ≠ (requestedIds od).length := by
    constructor
    · rintro ⟨miss, hmiss⟩
      intro hg
      cases hs : firstShortLine (foundProducts db od) od.products with
      | none =>
        rw [create_order_success nid hg hs] at hmiss
        cases hmiss
      | some trip =>
        obtain ⟨nm, a, r⟩ := trip
        rw [create_order_short nid hg hs] at hmiss
        cases hmiss
    · intro hg
      exact ⟨_, create_order_guard_fail nid hg⟩
  have hcond : ¬((requestedIds od).Nodup ∧
      ∀ pid ∈ requestedIds od, (findProduct db.products pid).isSome) ↔
      (¬(requestedIds od).Nodup ∨
        ∃ pid ∈ requestedIds od, findProduct db.products pid = none) := by
    rw [not_and_or]
    apply or_congr Iff.rfl
    push_neg
    constructor
    · rintro ⟨pid, hpid, hno⟩
      exact ⟨pid, hpid, Option.not_isSome_iff_eq_none.mp (by simpa using hno)⟩
    · rintro ⟨pid, hpid, hno⟩
      exact ⟨pid, hpid, by simp [hno]⟩
  refine ⟨?_, ?_, ?_⟩
  · rw [hguardfail, ← hcond, ← hgi]
  · intro miss hmiss
    have hg : (foundProducts db od).length ≠ (requestedIds od).length :=
      hguardfail.mp ⟨miss, hmiss⟩
    rw [create_order_guard_fail nid hg] at hmiss
    have := createOrder_missing_eq db od
    simp only [Except.error.injEq, SvcError.notFound.injEq] at hmiss
    rw [← hmiss, this]
  · intro e he
    simp only [applyOp, he]

/-- C8 witness: a request with distinct ids, one of which (id 3) is absent,
fails with the not-found error listing exactly [3], and leaves the state
unchanged under `applyOp`. -/
theorem claim_C8_witness :
    ((∃ miss, create_order (DB.mk [⟨1, "a", none, 2, 5⟩] []) 100 ⟨9, [⟨1, 1⟩, ⟨3, 1⟩]⟩ =
        .error (.notFound miss)) ↔
      (¬(requestedIds ⟨9, [⟨1, 1⟩, ⟨3, 1⟩]⟩).Nodup ∨
        ∃ pid ∈ requestedIds ⟨9, [⟨1, 1⟩, ⟨3, 1⟩]⟩,
          findProduct (DB.mk [⟨1, "a", none, 2, 5⟩] []).products pid = none)) ∧
    (∀ miss, create_order (DB.mk [⟨1, "a", none, 2, 5⟩] []) 100 ⟨9, [⟨1, 1⟩, ⟨3, 1⟩]⟩ =
        .error (.notFound miss) →
      miss = (requestedIds ⟨9, [⟨1, 1⟩, ⟨3, 1⟩]⟩).filter
        (fun pid => (findProduct (DB.mk [⟨1, "a", none, 2, 5⟩] []).products pid).isNone)) ∧
    (∀ e, create_order (DB.mk [⟨1, "a", none, 2, 5⟩] []) 100 ⟨9, [⟨1, 1⟩, ⟨3, 1⟩]⟩ =
        .error e →
      applyOp (DB.mk [⟨1, "a", none, 2, 5⟩] [])
        (.createOrder 100 ⟨9, [⟨1, 1⟩, ⟨3, 1⟩]⟩) = DB.mk [⟨1, "a", none, 2, 5⟩] []) :=
  @claim_C8_not_found_amended (DB.mk [⟨1, "a", none, 2, 5⟩] []) 100 ⟨9, [⟨1, 1⟩, ⟨3, 1⟩]⟩
    (by decide)

/-- C2 counterexample: the claim's "for every order request" fails on a
request that repeats a product id.  Product 1 has quantity 5 and the second
line requests 9999 (> 5), yet `create_order` does not raise the
insufficient-stock error naming the product: the duplicate id makes the
batch-lookup length guard fire first, so the request fails as "not found"
with an empty missing list, before the stock check runs. -/
theorem claim_C2_counterexample :
    (∃ p, findProduct (DB.mk [⟨1, "a", none, 2, 5⟩] []).products 1 = some p ∧
      p.quantity < (9999 : Int)) ∧
    create_order (DB.mk [⟨1, "a", none, 2, 5⟩] []) 100 ⟨9, [⟨1, 1⟩, ⟨1, 9999⟩]⟩ =
      .error (.notFound []) ∧
    (∀ nm : String, ∀ a r : Int,
      create_order (DB.mk [⟨1, "a", none, 2, 5⟩] []) 100 ⟨9, [⟨1, 1⟩, ⟨1, 9999⟩]⟩ ≠
        .error (.insufficientStock nm a r)) := by
  refine ⟨⟨⟨1, "a", none, 2, 5⟩, by decide, by decide⟩, by decide, ?_⟩
  intro nm a r h
  rw [show create_order (DB.mk [⟨1, "a", none, 2, 5⟩] []) 100 ⟨9, [⟨1, 1⟩, ⟨1, 9999⟩]⟩ =
    .error (.notFound []) from by decide] at h
  cases h

/-- C2 (amended): restricted to requests whose product ids are pairwise
distinct (and all present), `create_order` is all-or-nothing: if any line
requests more than its product's current stock, it fails with
`InsufficientStockError` carrying a short line's product name and both
quantities, and the state is unchanged — no product was mutated; if every
line is covered, it succeeds and each line's quantity is deducted from its
product. -/
theorem claim_C2_all_or_nothing {db : DB} {nid : Nat} {od : OrderCreate}
    (hinv : (db.products.map Product.id).Nodup)
    (hnd : (requestedIds od).Nodup)
    (hall : ∀ pid ∈ requestedIds od, (findProduct db.products pid).isSome) :
    ((∃ it ∈ od.products, ∃ p, findProduct db.products it.product_id = some p ∧
        p.quantity < it.quantity) →
      (∃ it ∈ od.products, ∃ p, findProduct db.products it.product_id = some p ∧
        p.quantity < it.quantity ∧
        create_order db nid od = .error (.insufficientStock p.name p.quantity it.quantity)) ∧
      applyOp db (.createOrder nid od) = db) ∧
    ((∀ it ∈ od.products, ∀ p, findProduct db.products it.product_id = some p →
        ¬(p.quantity < it.quantity)) →
      ∃ db2, create_order db nid od = .ok db2 ∧
        ∀ it ∈ od.products, ∃ p, findProduct db.products it.product_id = some p ∧
          findProduct db2.products it.product_id =
            some { p with quantity := p.quantity - it.quantity }) := by
  have hg : (foundProducts db od).length = (requestedIds od).length :=
    (createOrder_guard_iff db od hinv).mpr ⟨hnd, hall⟩
  constructor
  · intro hshort
    cases hs : firstShortLine (foundProducts db od) od.products with
    | none =>
      exfalso
      rcases hshort with ⟨it, hit, p, hp, hlt⟩
      have hpid : it.product_id ∈ requestedIds od := List.mem_map_of_mem _ hit
      have := (firstShortLine_eq_none_iff _ _).mp hs it hit p
        (by rw [findProduct_foundProducts db od _ hpid]; exact hp)
      exact this hlt
    | some trip =>
      obtain ⟨nm, a, r⟩ := trip
      have hco := create_order_short nid hg hs
      rcases firstShortLine_some hs with ⟨it0, hit0, p0, hp0, rfl, rfl, rfl, hlt0⟩
      have hpid0 : it0.product_id ∈ requestedIds od := List.mem_map_of_mem _ hit0
      rw [findProduct_foundProducts db od _ hpid0] at hp0
      refine ⟨⟨it0, hit0, p0, hp0, hlt0, hco⟩, ?_⟩
      simp only [applyOp, hco]
  · intro hok
    have hs : firstShortLine (foundProducts db od) od.products = none := by
      rw [firstShortLine_eq_none_iff]
      intro it hit p hp
      have hpid : it.product_id ∈ requestedIds od := List.mem_map_of_mem _ hit
      rw [findProduct_foundProducts db od _ hpid] at hp
      exact hok it hit p hp
    refine ⟨_, create_order_success nid hg hs, ?_⟩
    intro it hit
    have hpid : it.product_id ∈ requestedIds od := List.mem_map_of_mem _ hit
    rcases Option.isSome_iff_exists.mp (hall _ hpid) with ⟨p, hp⟩
    refine ⟨p, hp, ?_⟩
    show findProduct (deductAll db.products od.products) it.product_id = _
    rw [findProduct_deductAll, hp]
    have hmemf : it ∈ od.products.filter (fun it2 => it2.product_id == it.product_id) :=
      List.mem_filter.mpr ⟨hit, by simp⟩
    rcases lineFilter_eq_nil_or_single hnd it.product_id with h0 | ⟨it0, _, _, hfeq⟩
    · rw [h0] at hmemf
      cases hmemf
    · rw [hfeq] at hmemf ⊢
      obtain rfl : it = it0 := by simpa using hmemf
      simp
/-- C2 witness: product ids distinct and present; line (1,2) is covered by
stock 5 and line (2,3) by stock 9, so creation succeeds and both products are
deducted; applying the theorem's failure branch is not needed since the
success branch is exercised. -/
theorem claim_C2_witness :
    ∃ db2, create_order (DB.mk [⟨1, "a", none, 2, 5⟩, ⟨2, "b", none, 4, 9⟩] []) 100
        ⟨9, [⟨1, 2⟩, ⟨2, 3⟩]⟩ = .ok db2 ∧
      ∀ it ∈ (OrderCreate.mk 9 [⟨1, 2⟩, ⟨2, 3⟩]).products, ∃ p,
        findProduct (DB.mk [⟨1, "a", none, 2, 5⟩, ⟨2, "b", none, 4, 9⟩] []).products
          it.product_id = some p ∧
        findProduct db2.products it.product_id =
          some { p with quantity := p.quantity - it.quantity } :=
  (@claim_C2_all_or_nothing (DB.mk [⟨1, "a", none, 2, 5⟩, ⟨2, "b", none, 4, 9⟩] []) 100
    ⟨9, [⟨1, 2⟩, ⟨2, 3⟩]⟩ (by decide) (by decide) (by decide)).2 (by decide)

/-!
## Lemmas: invariant preservation per operation
-/

theorem map_id_updateProducts (ps : List Product) (pid : Nat) (u : ProductUpdate) :
    ((ps.map (fun p => if p.id == pid then applyProductUpdate p u else p)).map Product.id) =
      ps.map Product.id := by
  rw [List.map_map]
  apply List.map_congr_left
  intro p _
  by_cases h : p.id = pid <;> simp [h, applyProductUpdate]

theorem map_id_setOrderStatus (os : List Order) (oid : Nat) (t : OrderStatus) :
    (setOrderStatus os oid t).map Order.id = os.map Order.id := by
  unfold setOrderStatus
  rw [List.map_map]
  apply List.map_congr_left
  intro o _
  by_cases h : o.id = oid <;> simp [h]

theorem map_id_setPaymentStatus (os : List Order) (oid : Nat) (ps : PaymentStatus) :
    (setPaymentStatus os oid ps).map Order.id = os.map Order.id := by
  unfold setPaymentStatus
  rw [List.map_map]
  apply List.map_congr_left
  intro o _
  by_cases h : o.id = oid <;> simp [h]

theorem order_items_setOrderStatus {os : List Order} {oid : Nat} {t : OrderStatus} {o2 : Order}
    (h : o2 ∈ setOrderStatus os oid t) : ∃ o ∈ os, o2.order_items = o.order_items := by
  rcases List.mem_map.mp h with ⟨o, ho, rfl⟩
  refine ⟨o, ho, ?_⟩
  by_cases hh : o.id = oid <;> simp [hh]

theorem order_items_setPaymentStatus {os : List Order} {oid : Nat} {ps : PaymentStatus}
    {o2 : Order} (h : o2 ∈ setPaymentStatus os oid ps) :
    ∃ o ∈ os, o2.order_items = o.order_items := by
  rcases List.mem_map.mp h with ⟨o, ho, rfl⟩
  refine ⟨o, ho, ?_⟩
  by_cases hh : o.id = oid <;> simp [hh]

theorem DBInv_applyOp {db : DB} {op : Op} (hinv : DBInv db) (hval : ValidOp db op) :
    DBInv (applyOp db op) := by
  obtain ⟨hpnd, hond, hstock, hitems⟩ := hinv
  cases op with
  | createProduct nid pd =>
    obtain ⟨hq, hfresh⟩ := hval
    refine ⟨?_, hond, ?_, hitems⟩
    · show ((db.products ++ [_]).map Product.id).Nodup
      rw [List.map_append, List.nodup_append]
      refine ⟨hpnd, by simp, ?_⟩
      intro x hx hmem
      simp only [List.map_cons, List.map_nil, List.mem_singleton] at hmem
      exact hfresh (hmem ▸ hx)
    · intro p hp
      rcases List.mem_append.mp hp with h1 | h2
      · exact hstock p h1
      · simp only [List.mem_singleton] at h2
        subst h2
        exact hq
  | updateProduct pid u =>
    simp only [applyOp, update_product]
    cases hfp : findProduct db.products pid with
    | none => exact ⟨hpnd, hond, hstock, hitems⟩
    | some p =>
      refine ⟨?_, hond, ?_, hitems⟩
      · rw [map_id_updateProducts]
        exact hpnd
      · intro p2 hp2
        rcases List.mem_map.mp hp2 with ⟨p0, hp0, rfl⟩
        by_cases hh : p0.id = pid
        · simp only [hh, beq_self_eq_true, if_true]
          show 0 ≤ (applyProductUpdate p0 u).quantity
          unfold applyProductUpdate
          cases hu : u.quantity with
          | none => simpa using hstock p0 hp0
          | some q => simpa using hval q hu
        · have : (p0.id == pid) = false := by simpa using hh
          simp only [this, Bool.false_eq_true, if_false]
          exact hstock p0 hp0
  | deleteProduct pid =>
    simp only [applyOp]
    cases hd : delete_product db pid with
    | error e => exact ⟨hpnd, hond, hstock, hitems⟩
    | ok db2 =>
      unfold delete_product at hd
      cases hfp : findProduct db.products pid with
      | none =>
        simp only [hfp] at hd
        obtain rfl : db = db2 := by simpa using hd
        exact ⟨hpnd, hond, hstock, hitems⟩
      | some p =>
        simp only [hfp] at hd
        by_cases hr : productReferenced db pid = true
        · rw [if_pos hr] at hd
          cases hd
        · rw [if_neg hr] at hd
          obtain rfl : { db with products := db.products.filter (fun p => !(p.id == pid)) } = db2 := by
            simpa using hd
          refine ⟨?_, hond, ?_, hitems⟩
          · exact List.Nodup.sublist ((List.filter_sublist _).map Product.id) hpnd
          · intro p2 hp2
            exact hstock p2 (List.mem_of_mem_filter hp2)
  | updatePaymentStatus oid ps2 =>
    simp only [applyOp]
    cases hup : update_payment_status db oid ps2 with
    | error e => exact ⟨hpnd, hond, hstock, hitems⟩
    | ok odb =>
      cases odb with
      | none => exact ⟨hpnd, hond, hstock, hitems⟩
      | some db2 =>
        unfold update_payment_status at hup
        cases hfo : findOrder db.orders oid with
        | none =>
          simp only [hfo] at hup
          simp at hup
        | some o =>
          simp only [hfo] at hup
          by_cases hst : o.status ≠ OrderStatus.pending
          · rw [if_pos hst] at hup
            cases hup
          · rw [if_neg hst] at hup
            obtain rfl : { db with orders := setPaymentStatus db.orders oid ps2 } = db2 := by
              simpa using hup
            refine ⟨hpnd, ?_, hstock, ?_⟩
            · rw [map_id_setPaymentStatus]
              exact hond
            · intro o2 ho2 it hit
              rcases order_items_setPaymentStatus ho2 with ⟨o0, ho0, he⟩
              exact hitems o0 ho0 it (he ▸ hit)
  | updateOrderStatus oid t =>
    simp only [applyOp]
    cases huo : update_order_status db oid t with
    | error e => exact ⟨hpnd, hond, hstock, hitems⟩
    | ok odb =>
      cases odb with
      | none => exact ⟨hpnd, hond, hstock, hitems⟩
      | some db2 =>
        unfold update_order_status at huo
        cases hfo : findOrder db.orders oid with
        | none =>
          simp only [hfo] at huo
          simp at huo
        | some o =>
          simp only [hfo] at huo
          cases hvt : validate_status_transition o.status t with
          | error e =>
            simp only [hvt] at huo
            simp at huo
          | ok u =>
            simp only [hvt] at huo
            simp only [Except.ok.injEq, Option.some.injEq] at huo
            subst huo
            refine ⟨?_, ?_, ?_, ?_⟩
            · show ((if t = OrderStatus.canceled ∧ o.status = OrderStatus.pending then
                  restoreAll db.products o.order_items else db.products).map Product.id).Nodup
              by_cases hc : t = OrderStatus.canceled ∧ o.status = OrderStatus.pending
              · rw [if_pos hc, map_id_restoreAll]
                exact hpnd
              · rw [if_neg hc]
                exact hpnd
            · show ((setOrderStatus db.orders oid t).map Order.id).Nodup
              rw [map_id_setOrderStatus]
              exact hond
            · show ∀ p ∈ (if t = OrderStatus.canceled ∧ o.status = OrderStatus.pending then
                  restoreAll db.products o.order_items else db.products), 0 ≤ p.quantity
              by_cases hc : t = OrderStatus.canceled ∧ o.status = OrderStatus.pending
              · rw [if_pos hc]
                intro p2 hp2
                have hndAfter : ((restoreAll db.products o.order_items).map Product.id).Nodup := by
                  rw [map_id_restoreAll]
                  exact hpnd
                have hfind := findProduct_of_mem hndAfter hp2
                rw [findProduct_restoreAll] at hfind
                cases hfp : findProduct db.products p2.id with
                | none =>
                  rw [hfp] at hfind
                  cases hfind
                | some p0 =>
                  rw [hfp] at hfind
                  simp only [Option.map_some', Option.some.injEq] at hfind
                  have hsum : 0 ≤ ((o.order_items.filter
                      (fun it => it.product_id == p2.id)).map (fun it => it.quantity)).sum := by
                    apply List.sum_nonneg
                    intro x hx
                    rcases List.mem_map.mp hx with ⟨it, hitf, rfl⟩
                    have hitmem := List.mem_of_mem_filter hitf
                    exact le_of_lt (hitems o (findOrder_mem hfo) it hitmem)
                  have hq0 := hstock p0 (findProduct_mem hfp)
                  rw [← hfind]
                  simp only []
                  omega
              · rw [if_neg hc]
                exact hstock
            · intro o2 ho2 it hit
              rcases order_items_setOrderStatus ho2 with ⟨o0, ho0, he⟩
              exact hitems o0 ho0 it (he ▸ hit)
  | createOrder nid od =>
    obtain ⟨hq, hfresh⟩ := hval
    simp only [applyOp]
    cases hco : create_order db nid od with
    | error e => exact ⟨hpnd, hond, hstock, hitems⟩
    | ok db2 =>
      by_cases hg : (foundProducts db od).length = (requestedIds od).length
      · cases hs : firstShortLine (foundProducts db od) od.products with
        | some trip =>
          obtain ⟨nm, a, r⟩ := trip
          rw [create_order_short nid hg hs] at hco
          cases hco
        | none =>
          rw [create_order_success nid hg hs] at hco
          simp only [Except.ok.injEq] at hco
          subst hco
          obtain ⟨hnd2, hall⟩ := (createOrder_guard_iff db od hpnd).mp hg
          refine ⟨?_, ?_, ?_, ?_⟩
          · show ((deductAll db.products od.products).map Product.id).Nodup
            rw [map_id_deductAll]
            exact hpnd
          · show ((db.orders ++ [_]).map Order.id).Nodup
            rw [List.map_append, List.nodup_append]
            refine ⟨hond, by simp, ?_⟩
            intro x hx hmem
            simp only [List.map_cons, List.map_nil, List.mem_singleton] at hmem
            exact hfresh (hmem ▸ hx)
          · intro p2 hp2
            have hndAfter : ((deductAll db.products od.products).map Product.id).Nodup := by
              rw [map_id_deductAll]
              exact hpnd
            have hfind := findProduct_of_mem hndAfter hp2
            rw [findProduct_deductAll] at hfind
            cases hfp : findProduct db.products p2.id with
            | none =>
              rw [hfp] at hfind
              cases hfind
            | some p0 =>
              rw [hfp] at hfind
              simp only [Option.map_some', Option.some.injEq] at hfind
              have hq0 := hstock p0 (findProduct_mem hfp)
              rcases lineFilter_eq_nil_or_single hnd2 p2.id with h0 | ⟨it0, hit0, hpid0, hfeq⟩
              · rw [h0] at hfind
                rw [← hfind]
                simp only [List.map_nil, List.sum_nil]
                omega
              · rw [hfeq] at hfind
                have hpid0m : it0.product_id ∈ requestedIds od := List.mem_map_of_mem _ hit0
                have hfp0 : findProduct (foundProducts db od) it0.product_id = some p0 := by
                  rw [findProduct_foundProducts db od _ hpid0m, hpid0]
                  exact hfp
                have hle := (firstShortLine_eq_none_iff _ _).mp hs it0 hit0 p0 hfp0
                rw [← hfind]
                simp only [List.map_cons, List.map_nil, List.sum_cons, List.sum_nil]
                omega
          · intro o2 ho2 it hit
            rcases List.mem_append.mp ho2 with h1 | h2
            · exact hitems o2 h1 it hit
            · simp only [List.mem_singleton] at h2
              subst h2
              rcases List.mem_map.mp hit with ⟨it0, hit0, rfl⟩
              exact hq it0 hit0
      · rw [create_order_guard_fail nid hg] at hco
        cases hco

/-- C1: along every sequence of core operations (order creation, order-status
update, payment-status update, product create/update/delete) started in a
state satisfying the schema's own integrity constraints (primary-key
uniqueness, `quantity >= 0` check on products, `quantity > 0` check on order
items) and fed schema-valid requests, every product's quantity stays
non-negative after each operation: `create_order` deducts only after checking
every line against current stock, and cancellation only adds quantity back.
Since the sequence is universally quantified, the bound holds after every
prefix, i.e. after each operation. -/
theorem claim_C1_stock_never_negative {db : DB} (ops : List Op)
    (hinv : DBInv db) (hval : ValidTrace db ops) :
    ∀ p ∈ (run db ops).products, 0 ≤ p.quantity := by
  induction ops generalizing db with
  | nil => exact hinv.2.2.1
  | cons op rest ih => exact ih (DBInv_applyOp hinv hval.1) hval.2

/-- C1 witness: create a product (stock 5), order 2 of it, cancel the order
(restoring stock), then set stock to 3 by an update — every product of the
final catalog has non-negative quantity. -/
theorem claim_C1_witness :
    ((run (DB.mk [] [])
      [.createProduct 1 ⟨"a", none, 2, 5⟩,
       .createOrder 10 ⟨9, [⟨1, 2⟩]⟩,
       .updateOrderStatus 10 .canceled,
       .updateProduct 1 ⟨none, none, none, some 3⟩]).products.all
        (fun p => decide (0 ≤ p.quantity))) = true := by
  have h := @claim_C1_stock_never_negative (DB.mk [] [])
    [.createProduct 1 ⟨"a", none, 2, 5⟩,
     .createOrder 10 ⟨9, [⟨1, 2⟩]⟩,
     .updateOrderStatus 10 .canceled,
     .updateProduct 1 ⟨none, none, none, some 3⟩]
    ⟨by decide, by decide, by decide, by decide⟩
    ⟨by constructor <;> decide, by constructor <;> decide, trivial,
      fun q hq => by injection hq with h; omega, trivial⟩
  exact List.all_eq_true.mpr (fun p hp => decide_eq_true (h p hp))
